/-
  Verification of the Build-Ticket-Automation core against its specification.

  Shallow embedding of the Python source:
  - `_extract_tables` and `_extract_key_value_pairs`
    (src/comprehensive_excel_extractor.py): structure inference over a Grid,
    modelled as `List (List String)` where an absent or NaN cell is the empty
    string and pandas' `pd.notna(v) and str(v).strip()` becomes `trim ≠ ""`.
  - The Field Resolver (src/data_accessor.py): `get_table_by_index`,
    `get_table_by_headers`, `get_column_by_keywords`, `find_key_by_keywords`,
    `_extract_actual_values_from_tables`, `_resolve_variable_reference`,
    and the synthesizer fallback `_create_vm_instances_from_config`.
    Python dicts are modelled as insertion-ordered association lists with
    update-in-place insertion (`dictInsert`), matching dict iteration order.
  - The identifier sanitizers `_sanitize_directory_name`
    (src/automation_pipeline.py) and `_sanitize_resource_name`
    (src/enhanced_terraform_generator.py); the regex class `\w` is modelled
    over its ASCII range (alphanumeric or underscore).
  - `_generate_validate_script` (src/enhanced_terraform_generator_v2.py),
    with the `datetime.now()` reading made an explicit `now` argument.
-/
import Mathlib

namespace BuildTicket

/-! ### Python string primitives

The Lean core `String` functions (`trim`, `toLower`, `startsWith`,
`replace`, `splitOn`) are not kernel-reducible, so the Python string
operations are implemented here over `List Char` by structural recursion;
Unicode-specific behaviour (non-ASCII case mapping, exotic whitespace,
the `\w` class beyond ASCII) is modelled over the ASCII range. -/

/-- Drop the longest suffix whose characters satisfy `p`
(the right half of Python `strip`). -/
def dropTailWhile (p : Char → Bool) : List Char → List Char
  | [] => []
  | c :: rest =>
    match dropTailWhile p rest with
    | [] => if p c then [] else [c]
    | r => c :: r

/-- Python `s.strip()` (modelled over ASCII whitespace). -/
def pyTrim (s : String) : String :=
  String.mk (dropTailWhile Char.isWhitespace (s.data.dropWhile Char.isWhitespace))

/-- Python `str.lower()` on one character (ASCII range). -/
def pyLowerChar (c : Char) : Char :=
  if 'A' ≤ c && c ≤ 'Z' then Char.ofNat (c.toNat + 32) else c

/-- Python `s.lower()` (modelled over ASCII). -/
def pyToLower (s : String) : String :=
  String.mk (s.data.map pyLowerChar)

/-- Whether `pat` is an initial segment of `l`. -/
def beginsWith : List Char → List Char → Bool
  | [], _ => true
  | _ :: _, [] => false
  | a :: pat, b :: l => a == b && beginsWith pat l

/-- Python `s.startswith(pre)`. -/
def pyStartsWith (s pre : String) : Bool :=
  beginsWith pre.data s.data

/-- Whether `needle` occurs as a contiguous segment of `hay`. -/
def hasSub (needle : List Char) : List Char → Bool
  | [] => needle == []
  | c :: rest => beginsWith needle (c :: rest) || hasSub needle rest

/-- Python `needle in hay` substring test. -/
def pyInStr (needle hay : String) : Bool :=
  hasSub needle.data hay.data

/-- The loop of Python `s.replace(old, new)` for non-empty `old`:
replace non-overlapping occurrences left to right. `fuel` bounds the
recursion and is called with the length of the list. -/
def replaceGo (pat rep : List Char) : Nat → List Char → List Char
  | 0, l => l
  | _ + 1, [] => []
  | fuel + 1, c :: rest =>
    if pat ≠ [] && beginsWith pat (c :: rest) then
      rep ++ replaceGo pat rep fuel ((c :: rest).drop pat.length)
    else c :: replaceGo pat rep fuel rest

/-- Python `s.replace(old, new)`; an empty `old` inserts `new` before
every character and at the end, as Python does. -/
def pyReplace (s pat rep : String) : String :=
  if pat.data = [] then
    String.mk (rep.data ++ (s.data.map (fun c => c :: rep.data)).flatten)
  else String.mk (replaceGo pat.data rep.data s.data.length s.data)

/-- The accumulator loop of Python `s.split()`: `cur` holds the current
(reversed) whitespace-free run. -/
def wsSplit (cur : List Char) : List Char → List (List Char)
  | [] => if cur = [] then [] else [cur.reverse]
  | c :: rest =>
    if c.isWhitespace then
      if cur = [] then wsSplit [] rest else cur.reverse :: wsSplit [] rest
    else wsSplit (c :: cur) rest

/-- Python `s.split()`: whitespace-separated tokens, no empties. -/
def pySplit (s : String) : List String :=
  (wsSplit [] s.data).map String.mk

/-- Numeric value of a digit list. -/
def digitsVal (cs : List Char) : Nat :=
  cs.foldl (fun acc c => acc * 10 + (c.toNat - '0'.toNat)) 0

/-- Python `int(s)` on string input: optional sign, digits with optional
underscore grouping between digits, surrounding whitespace allowed;
`none` when Python would raise `ValueError`. -/
def pyParseInt (s : String) : Option Int :=
  let t := (pyTrim s).data
  let neg := beginsWith ['-'] t
  let core := if neg || beginsWith ['+'] t then t.drop 1 else t
  if core ≠ [] && core.all (fun c => c.isDigit || c = '_') &&
     core.head? ≠ some '_' && core.getLast? ≠ some '_' &&
     (core.zip core.tail).all (fun p => !(p.1 = '_' && p.2 = '_')) then
    let n := digitsVal (core.filter (fun c => c ≠ '_'))
    some (if neg then -(n : Int) else (n : Int))
  else none

/-- Python `f"{n:02d}"` for a natural number. -/
def pad2 (n : Nat) : String :=
  if n < 10 then "0" ++ toString n else toString n

/-! ### Python dict as insertion-ordered association list -/

/-- Lookup in an insertion-ordered association list (Python `d[k]` / `d.get(k)`). -/
def pyLookup : List (String × String) → String → Option String
  | [], _ => none
  | (a, b) :: rest, k => if a = k then some b else pyLookup rest k

/-- Python `d.get(k, default)`. -/
def pyGet (m : List (String × String)) (k dflt : String) : String :=
  (pyLookup m k).getD dflt

/-- Python `d[k] = v`: update in place if the key exists, else append. -/
def dictInsert (m : List (String × String)) (k v : String) : List (String × String) :=
  if m.any (fun p => p.1 = k) then
    m.map (fun p => if p.1 = k then (k, v) else p)
  else m ++ [(k, v)]

/-! ### Grid model and table detection (`_extract_tables`) -/

/-- Cell access inside one row; absent cells read as the empty string. -/
def cellAt (row : List String) (j : Nat) : String :=
  row.getD j ""

/-- Number of columns of the pandas DataFrame built from the grid. -/
def gridWidth (grid : List (List String)) : Nat :=
  grid.foldr (fun r acc => max r.length acc) 0

/-- `sum(1 for val in row if pd.notna(val) and str(val).strip())`. -/
def rowNonEmptyCount (row : List String) : Nat :=
  (row.filter (fun c => pyTrim c ≠ "")).length

/-- A detected table: header row index, header list, and data rows as
insertion-ordered header-to-value maps. -/
structure Table where
  header_row_index : Nat
  headers : List String
  data : List (List (String × String))
deriving DecidableEq, Repr, Inhabited

/-- Header list of a candidate header row: trimmed cell text, or the
positional placeholder `Column_<index>` for empty cells. -/
def headersFor (row : List String) (width : Nat) : List String :=
  (List.range width).map (fun j =>
    if pyTrim (cellAt row j) ≠ "" then pyTrim (cellAt row j)
    else "Column_" ++ toString j)

/-- One data row: each non-empty cell mapped to its header (dict semantics). -/
def rowDataFor (headers : List String) (row : List String) : List (String × String) :=
  headers.enum.foldl (fun m jh =>
    if pyTrim (cellAt row jh.1) ≠ "" then dictInsert m jh.2 (pyTrim (cellAt row jh.1))
    else m) []

/-- Collect data rows from `start`, stopping at the first row with zero
populated cells, at the end of the grid, or after `fuel` rows (the source
scans at most 99 rows after the header). -/
def collectRows (grid : List (List String)) (headers : List String) :
    Nat → Nat → List (List (String × String))
  | _, 0 => []
  | start, fuel + 1 =>
    if start < grid.length then
      let rd := rowDataFor headers (grid.getD start [])
      if rd = [] then []
      else rd :: collectRows grid headers (start + 1) fuel
    else []

/-- One iteration of the `_extract_tables` scan: the candidate table rooted
at `row_idx`, or `none` when the row is not a header or the candidate is
rejected (no data row, or fewer than 3 headers). -/
def tableAt (grid : List (List String)) (row_idx : Nat) : Option Table :=
  let row := grid.getD row_idx []
  if rowNonEmptyCount row ≥ 3 then
    let headers := headersFor row (gridWidth grid)
    let data_rows := collectRows grid headers (row_idx + 1) 99
    if data_rows ≠ [] ∧ headers.length ≥ 3 then
      some ⟨row_idx, headers, data_rows⟩
    else none
  else none

/-- `_extract_tables` (src/comprehensive_excel_extractor.py): scan the first
20 rows for candidate headers (≥ 3 non-empty cells); for each, collect data
rows until the first fully-empty row; accept the table if it produced at
least one data row and at least 3 headers. -/
def extract_tables (grid : List (List String)) : List Table :=
  (List.range (min 20 grid.length)).filterMap (tableAt grid)

/-! ### Key-value extraction (`_extract_key_value_pairs`) -/

/-- The cleaned label of a grid row: column 0 trimmed, colons removed,
trimmed again. -/
def kvKey (row : List String) : String :=
  pyTrim (pyReplace (pyTrim (cellAt row 0)) ":" "")

/-- The trimmed value of a grid row: column 1 trimmed. -/
def kvValue (row : List String) : String :=
  pyTrim (cellAt row 1)

/-- The acceptance test of `_extract_key_value_pairs`: label and value both
non-empty and neither lowercasing to `nan`, `none` or the empty string. -/
def kvRowOk (row : List String) : Bool :=
  kvKey row ≠ "" && kvValue row ≠ "" &&
  !(["nan", "none", ""].contains (pyToLower (kvKey row))) &&
  !(["nan", "none", ""].contains (pyToLower (kvValue row)))

/-- One iteration of the `_extract_key_value_pairs` loop. -/
def kvStep (m : List (String × String)) (row : List String) : List (String × String) :=
  if kvRowOk row then dictInsert m (kvKey row) (kvValue row) else m

/-- `_extract_key_value_pairs` (src/comprehensive_excel_extractor.py): each
row contributes column 0 (trimmed, colons removed) ↦ column 1 (trimmed) when
both are non-empty and neither lowercases to `nan`, `none` or the empty
string; last write wins; nothing is extracted from a one-column frame. -/
def extract_key_value_pairs (grid : List (List String)) : List (String × String) :=
  if gridWidth grid < 2 then []
  else grid.foldl kvStep []

/-! ### Workbook model and Field Resolver (src/data_accessor.py) -/

/-- Per-sheet extracted data as the accessor reads it from the JSON model. -/
structure Sheet where
  tables : List Table
  key_value_pairs : List (String × String)
deriving DecidableEq, Repr, Inhabited

/-- `self.sheets.get(sheet_name, {})`: a missing sheet reads as empty. -/
def sheetGet (sheets : List (String × Sheet)) (sheet_name : String) : Sheet :=
  match sheets.find? (fun p => p.1 = sheet_name) with
  | some p => p.2
  | none => ⟨[], []⟩

/-- `get_table_by_index`: the table at `table_index` when
`0 <= table_index < len(tables)`, else `None` (no Python negative-index
wraparound is possible: the range check precedes the subscript). -/
def get_table_by_index (sheets : List (String × Sheet)) (sheet_name : String)
    (table_index : Int) : Option Table :=
  let tables := (sheetGet sheets sheet_name).tables
  if 0 ≤ table_index ∧ table_index < (tables.length : Int) then
    tables.get? table_index.toNat
  else none

/-- Match of one header against a keyword list, as used by the lookups:
`any(keyword.lower() in str(header).lower() for keyword in keywords)`. -/
def headerMatches (keywords : List String) (header : String) : Bool :=
  keywords.any (fun kw => pyInStr (pyToLower kw) (pyToLower header))

/-- `get_table_by_headers`: first table any of whose headers contains any
keyword case-insensitively; `None` when no table matches. -/
def get_table_by_headers (sheets : List (String × Sheet)) (sheet_name : String)
    (header_keywords : List String) : Option Table :=
  ((sheetGet sheets sheet_name).tables).find? (fun t =>
    t.headers.any (fun h => headerMatches header_keywords h))

/-- `get_column_by_keywords`: first matching header of the table at
`table_index`; `None` when the table or a match is absent. -/
def get_column_by_keywords (sheets : List (String × Sheet)) (sheet_name : String)
    (keywords : List String) (table_index : Int) : Option String :=
  match get_table_by_index sheets sheet_name table_index with
  | none => none
  | some t => t.headers.find? (fun h => headerMatches keywords h)

/-- `find_key_by_keywords`: first key of the sheet's key-value pairs that
contains any keyword case-insensitively; `None` when nothing matches. -/
def find_key_by_keywords (sheets : List (String × Sheet)) (sheet_name : String)
    (keywords : List String) : Option String :=
  (((sheetGet sheets sheet_name).key_value_pairs).find? (fun kv =>
    keywords.any (fun kw => pyInStr (pyToLower kw) (pyToLower kv.1)))).map (fun kv => kv.1)

/-- `get_key_value`: the value stored under `key` in the sheet's key-value
pairs (`key_value_pairs.get(key)`); `None` when absent. -/
def get_key_value (sheets : List (String × Sheet)) (sheet_name key : String) :
    Option String :=
  pyLookup (sheetGet sheets sheet_name).key_value_pairs key

/-- `get_value_by_keywords`: look up the value under the first key matching
the keywords; `None` when no key matches. The source guards with Python
truthiness (`if key:`), so a found-but-empty key also yields `None`. -/
def get_value_by_keywords (sheets : List (String × Sheet)) (sheet_name : String)
    (keywords : List String) : Option String :=
  match find_key_by_keywords sheets sheet_name keywords with
  | some key => if key ≠ "" then get_key_value sheets sheet_name key else none
  | none => none

/-- The `skip_values` set of `_extract_actual_values_from_tables`
(src/data_accessor.py): placeholder and option labels never taken as
actual values. -/
def skipValues : List String :=
  ["Value", "Existing", "Validation", "Terraform Variable", "SNOW form",
   "User", "EA", "CMDB", "Cloud Engineering", "Azure Client Managed",
   "Azure CMS Managed", "OnPrem", "AWS Client Managed", "YES", "NO",
   "ASR", "GRS Backup/Restore", "Warm/Standby", "Cold Rebuild",
   "User/CMDB", "CMDB APP NAME", "SNOW team after request is complete?",
   "User/EA", "DEV", "UAT", "QA", "PROD", "DR", "Platinum", "Gold",
   "Silver", "Bronze", "Iron", "CMDB?", "MUST BE A NUMBER",
   "Commercial", "Consumer Related", "Corporate", "Corporate Support",
   "Overview"]

/-- `_extract_actual_values_from_tables`: field name from the first column
of each table row, value from the column at `value_column_index`, skipping
empties, `skip_values` members and `wab:` / `vm_list` prefixed values. -/
def extract_actual_values_from_tables (sheets : List (String × Sheet))
    (sheet_name : String) (value_column_index : Nat) : List (String × String) :=
  ((sheetGet sheets sheet_name).tables).foldl (fun acc table =>
    table.data.foldl (fun acc row =>
      if row.length ≥ value_column_index + 1 then
        let field_name := (row.getD 0 ("", "")).2
        let field_value := (row.getD value_column_index ("", "")).2
        if field_name ≠ "" && field_value ≠ "" && pyTrim field_value ≠ "" &&
           !(skipValues.contains field_name) &&
           !(skipValues.contains field_value) &&
           !(pyStartsWith field_value "wab:") &&
           !(pyStartsWith field_value "vm_list") then
          dictInsert acc field_name field_value
        else acc
      else acc) acc) []

/-- `_resolve_variable_reference`: resolve a `wab:`-prefixed symbolic value
against the sheet's actual values; exact case-insensitive substring match
first, then token-overlap partial match; on no match (or no prefix) the
original value is returned verbatim. -/
def resolve_variable_reference (sheets : List (String × Sheet)) (value : String)
    (sheet_name : String) : String :=
  if value = "" || !(pyStartsWith value "wab:") then value
  else
    let actual_values := extract_actual_values_from_tables sheets sheet_name 1
    let var_name := pyReplace (pyReplace value "wab:" "") "-" " "
    match actual_values.find? (fun kv => pyInStr (pyToLower var_name) (pyToLower kv.1)) with
    | some kv => kv.2
    | none =>
      match actual_values.find? (fun kv =>
          (pySplit var_name).any (fun word => pyInStr word (pyToLower kv.1))) with
      | some kv => kv.2
      | none => value

/-! ### Record synthesis: machine instances (src/data_accessor.py) -/

/-- The machine-count key search of `_create_vm_instances_from_config`:
first key containing a vm/server/instance term and a count/number/total
term whose value parses as an int; keys whose value fails to parse are
passed over. -/
def findVmCount : List (String × String) → Option Int
  | [] => none
  | (k, v) :: rest =>
    let kl := pyToLower k
    if (["vm", "server", "instance"].any (fun t => pyInStr t kl)) &&
       (["count", "number", "total"].any (fun t => pyInStr t kl)) then
      match pyParseInt v with
      | some n => some n
      | none => findVmCount rest
    else findVmCount rest

/-- One synthesized machine record of `_create_vm_instances_from_config`,
for zero-based index `i`. -/
def vmRecordFor (actual_values : List (String × String)) (i : Nat) :
    List (String × String) :=
  let app_name := pyGet actual_values "Abbreviated App Name" "myapp"
  [("Hostname", app_name ++ "-" ++ pad2 (i + 1)),
   ("Recommended SKU", pyGet actual_values "Choose Node Size" "Standard_D2s_v3"),
   ("OS Image*", pyGet actual_values "OS" "Ubuntu 22.04 LTS"),
   ("Environment", pyGet actual_values "Environment" "dev"),
   ("Server Owner", pyGet actual_values "Server Owner" "TBD"),
   ("Application Owner", pyGet actual_values "Application Owner" "TBD"),
   ("Business Owner", pyGet actual_values "Business Owner" "TBD"),
   ("Project Name", pyGet actual_values "Project Name" "project1"),
   ("Application Name", app_name),
   ("Service Now Ticket", pyGet actual_values "Service Now Ticket" "TBD"),
   ("Role", pyGet actual_values "Role" "web-server"),
   ("Patch Optin", pyGet actual_values "Patch Optin" "yes"),
   ("Private IP Address Allocation",
      pyGet actual_values "Private IP Address Allocation" "Dynamic"),
   ("OS disk size", pyGet actual_values "OS disk size" "30"),
   ("OS disk type", pyGet actual_values "OS disk type" "Premium_LRS"),
   ("Data disk sizes", pyGet actual_values "Data disk sizes" ""),
   ("Data disk type", pyGet actual_values "Data disk type" "Premium_LRS")]

/-- `_create_vm_instances_from_config`: fallback synthesis of machine
records from configuration values; the count defaults to 2. -/
def create_vm_instances_from_config (actual_values : List (String × String)) :
    List (List (String × String)) :=
  let vm_count : Int := (findVmCount actual_values).getD 2
  if vm_count ≤ 0 then []
  else (List.range vm_count.toNat).map (vmRecordFor actual_values)

/-- The machine-table detection test of `get_terraform_ready_data`
(src/data_accessor.py): header-keyword match or VM-like first-row fields,
plus at least 5 headers and at least one data row. -/
def isVmTableDetected (table : Table) : Bool :=
  let vm_keywords := ["hostname", "vm", "server", "machine", "instance",
                      "node", "compute", "sku", "recommended sku"]
  let is_vm_table := table.headers.any (fun h =>
    vm_keywords.any (fun kw => pyInStr kw (pyToLower h)))
  let has_vm_like_columns := table.headers.length ≥ 5 && table.data.length > 0
  let has_vm_data := match table.data with
    | [] => false
    | first_row :: _ => first_row.any (fun kv =>
        ["owner", "recommended", "os", "disk", "image"].any
          (fun kw => pyInStr kw (pyToLower kv.1)))
  (is_vm_table || has_vm_data) && has_vm_like_columns

/-- Machine records extracted from one detected machine table: each row's
non-empty fields, kept when at least 3 remain. -/
def extractVmFromTable (table : Table) : List (List (String × String)) :=
  if isVmTableDetected table then
    table.data.filterMap (fun row =>
      let vm_instance := row.filter (fun kv => kv.2 ≠ "" && kv.2.trim ≠ "")
      if vm_instance ≠ [] ∧ vm_instance.length ≥ 3 then some vm_instance
      else none)
  else []

/-- The machine-extraction step of `get_terraform_ready_data`: records from
every detected machine table of the resources sheet, falling back to
`_create_vm_instances_from_config` when none were produced. -/
def vmInstancesFor (resources_tables : List Table)
    (actual_values : List (String × String)) : List (List (String × String)) :=
  let vm_instances := resources_tables.foldl
    (fun acc t => acc ++ extractVmFromTable t) []
  if vm_instances ≠ [] then vm_instances
  else create_vm_instances_from_config actual_values

/-! ### Identifier sanitizers -/

/-- The ASCII range of the regex class `\w`: alphanumeric or underscore. -/
def pyIsWordChar (c : Char) : Bool :=
  c.isAlphanum || c = '_'

/-- A character the directory-name sanitizer keeps unchanged
(`[^\w\-_]` is replaced by `_`). -/
def dirKeep (c : Char) : Bool :=
  pyIsWordChar c || c = '-'

/-- `re.sub(r'[^\w\-_]', '_', s)` over the character list. -/
def replaceBad (l : List Char) : List Char :=
  l.map (fun c => if dirKeep c then c else '_')

/-- `re.sub(r'_+', '_', s)`: collapse each run of underscores to one. -/
def collapseUnders : List Char → List Char
  | [] => []
  | [c] => [c]
  | a :: b :: rest =>
    if a == '_' && b == '_' then collapseUnders (b :: rest)
    else a :: collapseUnders (b :: rest)

/-- Python `s.strip()` over the character list. -/
def trimWs (l : List Char) : List Char :=
  dropTailWhile Char.isWhitespace (l.dropWhile Char.isWhitespace)

/-- Python `s.strip('_')` over the character list. -/
def stripUnders (l : List Char) : List Char :=
  dropTailWhile (fun c => c == '_') (l.dropWhile (fun c => c == '_'))

/-- `if len(s) > 50: s = s[:50].rstrip('_')`. -/
def truncate50 (l : List Char) : List Char :=
  if l.length > 50 then dropTailWhile (fun c => c == '_') (l.take 50) else l

/-- The characters of the fallback directory name `"unknown"`. -/
def unknownChars : List Char :=
  ['u', 'n', 'k', 'n', 'o', 'w', 'n']

/-- `_sanitize_directory_name` (src/automation_pipeline.py) over the
character list: trim, replace disallowed characters by underscores,
collapse underscore runs, strip boundary underscores, truncate to 50,
default to `"unknown"` when empty. -/
def sanitizeDirCore (l : List Char) : List Char :=
  if l = [] then unknownChars
  else if truncate50 (stripUnders (collapseUnders (replaceBad (trimWs l)))) = [] then
    unknownChars
  else truncate50 (stripUnders (collapseUnders (replaceBad (trimWs l))))

/-- `_sanitize_directory_name` on strings. -/
def sanitize_directory_name (s : String) : String :=
  String.mk (sanitizeDirCore s.data)

/-- A character of the Terraform resource-name class `[a-zA-Z0-9_-]`. -/
def resKeep (c : Char) : Bool :=
  c.isAlpha || c.isDigit || c = '_' || c = '-'

/-- `_sanitize_resource_name` (src/enhanced_terraform_generator.py) over the
character list: replace disallowed characters by underscores and prepend
`vm_` when the non-empty result does not start with a letter. -/
def sanitizeResCore (l : List Char) : List Char :=
  match l.map (fun c => if resKeep c then c else '_') with
  | [] => []
  | c :: rest => if c.isAlpha then c :: rest else 'v' :: 'm' :: '_' :: c :: rest

/-- `_sanitize_resource_name` on strings. -/
def sanitize_resource_name (s : String) : String :=
  String.mk (sanitizeResCore s.data)

/-! ### Validation-script rendering (src/enhanced_terraform_generator_v2.py) -/

/-- Text of the validation script before the first `project_name` hole. -/
def validatePartA : String :=
  "#!/bin/bash\n# Validation Script for "

/-- Text between the first `project_name` hole and the timestamp hole. -/
def validatePartB : String :=
  "\n# Generated from Excel data on "

/-- Text between the timestamp hole and the second `project_name` hole. -/
def validatePartC : String :=
  "\n\nset -e  # Exit on any error\n\necho \"==========================================\"\necho \"Validating "

/-- Text after the second `project_name` hole. -/
def validatePartD : String :=
  " Infrastructure\"\necho \"==========================================\"\n\n# Check if Terraform is installed\nif ! command -v terraform &> /dev/null; then\n    echo \"Error: Terraform is not installed or not in PATH\"\n    exit 1\nfi\n\n# Initialize Terraform if needed\nif [ ! -d \".terraform\" ]; then\n    echo \"Initializing Terraform...\"\n    terraform init\nfi\n\n# Format check\necho \"Checking Terraform formatting...\"\nterraform fmt -check -diff\n\n# Validate configuration\necho \"Validating Terraform configuration...\"\nterraform validate\n\n# Security scan (if tfsec is available)\nif command -v tfsec &> /dev/null; then\n    echo \"Running security scan...\"\n    tfsec .\nelse\n    echo \"tfsec not found - skipping security scan\"\n    echo \"Install tfsec for security analysis: https://aquasecurity.github.io/tfsec/\"\nfi\n\necho \"\"\necho \"==========================================\"\necho \"Validation completed successfully!\"\necho \"==========================================\"\n"

/-- `_generate_validate_script`: the rendered validation-script artifact.
The source interpolates `datetime.now().strftime('%Y-%m-%d %H:%M:%S')` into
the text; the clock reading is made the explicit argument `now`. -/
def generate_validate_script (project_info : List (String × String))
    (now : String) : String :=
  let project_name := pyGet project_info "project_name" "default-project"
  validatePartA ++ project_name ++ validatePartB ++ now ++
    validatePartC ++ project_name ++ validatePartD

/-- Specification predicate: no two adjacent underscores anywhere in the
character list (the post-condition of collapsing underscore runs). -/
def noDoubleUnders : List Char → Bool
  | a :: b :: rest => !(a == '_' && b == '_') && noDoubleUnders (b :: rest)
  | _ => true

/-- The boundary-law example grid: a five-field header row, one data row,
one fully-empty row, then further populated rows. -/
def boundaryGrid : List (List String) :=
  [["Hostname", "SKU", "OS", "Owner", "Role"],
   ["h1", "s1", "o1", "w1", "r1"],
   ["", "", "", "", ""],
   ["h2", "s2", "o2", "w2", "r2"],
   ["h3", "s3", "o3", "w3", "r3"]]

/-! ## Theorems -/

/-- Decomposition of a successful `tableAt`: the accepted table records its
header row index, the synthesized headers, and the collected data rows,
and passed the acceptance test. -/
lemma tableAt_eq_some {grid : List (List String)} {i : Nat} {t : Table}
    (h : tableAt grid i = some t) :
    t.header_row_index = i ∧
    t.data = collectRows grid t.headers (i + 1) 99 ∧
    t.data ≠ [] ∧ 3 ≤ t.headers.length := by
  simp only [tableAt] at h
  split at h
  · split at h
    · rename_i hacc
      cases h
      exact ⟨rfl, rfl, hacc.1, hacc.2⟩
    · cases h
  · cases h

/-- Rows produced by `collectRows` are never empty maps. -/
lemma collectRows_mem_ne_nil (grid : List (List String)) (headers : List String) :
    ∀ fuel start r, r ∈ collectRows grid headers start fuel → r ≠ [] := by
  intro fuel
  induction fuel with
  | zero => intro start r hr; cases hr
  | succ n ih =>
    intro start r hr
    simp only [collectRows] at hr
    split at hr
    · by_cases hrd : rowDataFor headers (grid.getD start []) = []
      · rw [if_pos hrd] at hr; cases hr
      · rw [if_neg hrd] at hr
        rcases List.mem_cons.mp hr with h | h
        · exact h ▸ hrd
        · exact ih (start + 1) r h
    · cases hr

/-- A fully-empty row at `j` bounds the number of rows `collectRows`
gathers from any `start ≤ j`. -/
lemma collectRows_length_le (grid : List (List String)) (headers : List String)
    {j : Nat} (hj : rowDataFor headers (grid.getD j []) = []) :
    ∀ fuel start, start ≤ j →
      (collectRows grid headers start fuel).length ≤ j - start := by
  intro fuel
  induction fuel with
  | zero => intro start _; simp [collectRows]
  | succ n ih =>
    intro start hstart
    simp only [collectRows]
    split
    · by_cases hrd : rowDataFor headers (grid.getD start []) = []
      · rw [if_pos hrd]; simp
      · rw [if_neg hrd]
        have hne : start ≠ j := fun e => hrd (e ▸ hj)
        have hlt : start + 1 ≤ j := by omega
        have := ih (start + 1) hlt
        simp only [List.length_cons]
        omega
    · simp

/-- A row with zero populated cells has every cell empty after trimming. -/
lemma cell_empty_of_count_zero {row : List String}
    (h : rowNonEmptyCount row = 0) : ∀ j, pyTrim (cellAt row j) = "" := by
  have hall : ∀ c ∈ row, pyTrim c = "" := by
    intro c hc
    unfold rowNonEmptyCount at h
    rw [List.length_eq_zero] at h
    have := List.filter_eq_nil_iff.mp h c hc
    simpa using this
  intro j
  by_cases hj : j < row.length
  · have hcell : cellAt row j = row.get ⟨j, hj⟩ := by
      unfold cellAt
      rw [List.getD_eq_get?, List.get?_eq_get hj]
      rfl
    rw [hcell]
    exact hall _ (row.get_mem j hj)
  · have hcell : cellAt row j = "" := by
      unfold cellAt
      rw [List.getD_eq_get?, List.get?_eq_none.mpr (by omega)]
      rfl
    rw [hcell]
    rfl

/-- If every cell of `row` is empty after trimming, the header-to-value
map built from it is empty. -/
lemma rowDataFor_eq_nil {row : List String}
    (h : ∀ j, pyTrim (cellAt row j) = "") (headers : List String) :
    rowDataFor headers row = [] := by
  unfold rowDataFor
  have H : ∀ (l : List (Nat × String)) (m : List (String × String)),
      l.foldl (fun m jh =>
        if pyTrim (cellAt row jh.1) ≠ "" then
          dictInsert m jh.2 (pyTrim (cellAt row jh.1))
        else m) m = m := by
    intro l
    induction l with
    | nil => intro m; rfl
    | cons jh rest ih =>
      intro m
      simp only [List.foldl_cons, h jh.1, ne_eq, not_true_eq_false, if_false]
      exact ih m
  exact H headers.enum []

/-- C1: for every grid, a detected table contains no data row at or beyond
the first fully-empty row after its header: its data-row count never
reaches from the header past such a row. On the example grid with header
`["Hostname","SKU","OS","Owner","Role"]`, one data row, one fully-empty
row and further populated rows, the detected table with that header
contains exactly one data row. -/
theorem table_boundary_law :
    (∀ (grid : List (List String)) (t : Table), t ∈ extract_tables grid →
      ∀ j, t.header_row_index < j → j < grid.length →
        rowNonEmptyCount (grid.getD j []) = 0 →
        t.data.length ≤ j - t.header_row_index - 1) ∧
    ((extract_tables boundaryGrid).find? (fun t =>
        t.headers = ["Hostname", "SKU", "OS", "Owner", "Role"])).map
      (fun t => t.data.length) = some 1 := by
  constructor
  · intro grid t ht j hj _ hcount
    obtain ⟨i, _, hsome⟩ := List.mem_filterMap.mp ht
    obtain ⟨hidx, hdata, _, _⟩ := tableAt_eq_some hsome
    subst hidx
    have hrd : rowDataFor t.headers (grid.getD j []) = [] :=
      rowDataFor_eq_nil (cell_empty_of_count_zero hcount) t.headers
    have := collectRows_length_le grid t.headers hrd 99
      (t.header_row_index + 1) (by omega)
    rw [hdata]
    omega
  · decide

/-- Witness for C1: the boundary law applied to the example grid's first
table at the fully-empty row with index 2. -/
theorem table_boundary_law_witness :
    (⟨0, ["Hostname", "SKU", "OS", "Owner", "Role"],
      [[("Hostname", "h1"), ("SKU", "s1"), ("OS", "o1"),
        ("Owner", "w1"), ("Role", "r1")]]⟩ : Table).data.length ≤ 2 - 0 - 1 :=
  table_boundary_law.1 boundaryGrid _ (by decide) 2 (by decide) (by decide)
    (by decide)

/-- C2: every table returned by the structure inference engine has at
least 3 headers and at least one data row, and each of its data rows
carries at least one non-empty value. -/
theorem table_acceptance_invariant (grid : List (List String)) (t : Table)
    (ht : t ∈ extract_tables grid) :
    3 ≤ t.headers.length ∧ 1 ≤ t.data.length ∧ ∀ r ∈ t.data, r ≠ [] := by
  obtain ⟨i, _, hsome⟩ := List.mem_filterMap.mp ht
  obtain ⟨hidx, hdata, hne, hlen⟩ := tableAt_eq_some hsome
  refine ⟨hlen, ?_, ?_⟩
  · cases hd : t.data with
    | nil => exact absurd hd hne
    | cons r rest => simp [hd]
  · intro r hr
    rw [hdata] at hr
    exact collectRows_mem_ne_nil grid t.headers 99 (i + 1) r hr

/-- Witness for C2: the acceptance invariant holds for the table detected
on the example grid. -/
theorem table_acceptance_invariant_witness :
    3 ≤ (["Hostname", "SKU", "OS", "Owner", "Role"] : List String).length ∧
    1 ≤ ([[("Hostname", "h1"), ("SKU", "s1"), ("OS", "o1"),
          ("Owner", "w1"), ("Role", "r1")]] :
          List (List (String × String))).length :=
  let t : Table := ⟨0, ["Hostname", "SKU", "OS", "Owner", "Role"],
    [[("Hostname", "h1"), ("SKU", "s1"), ("OS", "o1"),
      ("Owner", "w1"), ("Role", "r1")]]⟩
  have h := table_acceptance_invariant boundaryGrid t (by decide)
  ⟨h.1, h.2.1⟩

/-- C10: `get_table_by_index` is bounds-safe: any index outside
`[0, len(tables))` — in particular any negative index — yields `none`, and
a sheet name absent from the workbook model yields `none` for every index;
Python negative-index wraparound is never exposed. -/
theorem get_table_by_index_bounds_safe (sheets : List (String × Sheet))
    (sheet_name : String) (idx : Int) :
    (idx < 0 ∨ ((sheetGet sheets sheet_name).tables.length : Int) ≤ idx →
      get_table_by_index sheets sheet_name idx = none) ∧
    (sheets.find? (fun p => p.1 = sheet_name) = none →
      get_table_by_index sheets sheet_name idx = none) := by
  constructor
  · intro h
    unfold get_table_by_index
    rw [if_neg]
    rintro ⟨h0, hlen⟩
    rcases h with h | h
    · omega
    · omega
  · intro h
    unfold get_table_by_index sheetGet
    rw [h]
    simp only [List.length_nil]
    rw [if_neg]
    rintro ⟨h0, hlen⟩
    omega

/-- Witness for C10: the lookup at index `-1` on an empty workbook model
returns `none`. -/
theorem get_table_by_index_bounds_safe_witness :
    get_table_by_index [] "Resources" (-1) = none :=
  (get_table_by_index_bounds_safe [] "Resources" (-1)).1 (Or.inl (by decide))

/-- C9: every Field Resolver lookup — table by header keywords, column by
keywords, key by keywords, and value by keywords — returns the `none`
sentinel when no match exists, for every sheet name (absent sheets read as
empty) and keyword list; the embedded lookups are total functions, so no
exception is possible. -/
theorem lookups_return_none_sentinel (sheets : List (String × Sheet))
    (sheet_name : String) (kws : List String) (idx : Int) :
    (get_table_by_headers sheets sheet_name kws = none ↔
      ∀ t ∈ (sheetGet sheets sheet_name).tables,
        t.headers.any (fun h => headerMatches kws h) = false) ∧
    (get_column_by_keywords sheets sheet_name kws idx = none ↔
      ∀ t, get_table_by_index sheets sheet_name idx = some t →
        ∀ h ∈ t.headers, headerMatches kws h = false) ∧
    (find_key_by_keywords sheets sheet_name kws = none ↔
      ∀ kv ∈ (sheetGet sheets sheet_name).key_value_pairs,
        kws.any (fun kw => pyInStr (pyToLower kw) (pyToLower kv.1)) = false) ∧
    ((∀ kv ∈ (sheetGet sheets sheet_name).key_value_pairs,
        kws.any (fun kw => pyInStr (pyToLower kw) (pyToLower kv.1)) = false) →
      get_value_by_keywords sheets sheet_name kws = none) := by
  have hval : (∀ kv ∈ (sheetGet sheets sheet_name).key_value_pairs,
      kws.any (fun kw => pyInStr (pyToLower kw) (pyToLower kv.1)) = false) →
      find_key_by_keywords sheets sheet_name kws = none := by
    intro h
    unfold find_key_by_keywords
    rw [Option.map_eq_none']
    rw [List.find?_eq_none]
    intro kv hkv
    simp [h kv hkv]
  refine ⟨?_, ?_, ?_, ?_⟩
  · unfold get_table_by_headers
    rw [List.find?_eq_none]
    simp
  · unfold get_column_by_keywords
    cases hidx : get_table_by_index sheets sheet_name idx with
    | none => simp [hidx]
    | some t =>
      simp only [hidx]
      rw [List.find?_eq_none]
      constructor
      · intro h t' ht'
        cases (Option.some.injEq _ _).mp ht'
        intro hh hmem
        simpa using h hh hmem
      · intro h hh hmem
        simpa using h t rfl hh hmem
  · unfold find_key_by_keywords
    rw [Option.map_eq_none']
    rw [List.find?_eq_none]
    simp
  · intro h
    unfold get_value_by_keywords
    rw [hval h]

/-- Witness for C9: on an empty workbook model nothing matches, and all
four lookups return `none`. -/
theorem lookups_return_none_sentinel_witness :
    get_table_by_headers [] "Resources" ["host"] = none ∧
    get_column_by_keywords [] "Resources" ["host"] 0 = none ∧
    find_key_by_keywords [] "Resources" ["host"] = none ∧
    get_value_by_keywords [] "Resources" ["host"] = none := by
  obtain ⟨h1, h2, h3, h4⟩ := lookups_return_none_sentinel [] "Resources" ["host"] 0
  exact ⟨h1.mpr (by simp [sheetGet]), h2.mpr (by simp [get_table_by_index, sheetGet]),
    h3.mpr (by simp [sheetGet]), h4 (by simp [sheetGet])⟩

/-- C6: `_resolve_variable_reference` is total in the embedding (it is a
Lean function into `String`, so it always returns a string and cannot
raise); a value without the `wab:` prefix is returned verbatim, and when
neither the exact case-insensitive substring match nor the token-overlap
partial match finds a candidate among the sheet's actual values, the
original value is returned verbatim. -/
theorem resolve_reference_graceful (sheets : List (String × Sheet))
    (value sheet_name : String) :
    (pyStartsWith value "wab:" = false →
      resolve_variable_reference sheets value sheet_name = value) ∧
    ((∀ kv ∈ extract_actual_values_from_tables sheets sheet_name 1,
        pyInStr (pyToLower (pyReplace (pyReplace value "wab:" "") "-" " "))
          (pyToLower kv.1) = false) →
     (∀ kv ∈ extract_actual_values_from_tables sheets sheet_name 1,
        (pySplit (pyReplace (pyReplace value "wab:" "") "-" " ")).any
          (fun word => pyInStr word (pyToLower kv.1)) = false) →
      resolve_variable_reference sheets value sheet_name = value) := by
  constructor
  · intro h
    unfold resolve_variable_reference
    rw [if_pos]
    simp [h]
  · intro hex hpart
    unfold resolve_variable_reference
    by_cases h0 : (value = "" || !(pyStartsWith value "wab:")) = true
    · rw [if_pos h0]
    · rw [if_neg h0]
      have h1 : (extract_actual_values_from_tables sheets sheet_name 1).find?
          (fun kv => pyInStr (pyToLower (pyReplace (pyReplace value "wab:" "") "-" " "))
            (pyToLower kv.1)) = none := by
        rw [List.find?_eq_none]
        intro kv hkv
        simp [hex kv hkv]
      have h2 : (extract_actual_values_from_tables sheets sheet_name 1).find?
          (fun kv => (pySplit (pyReplace (pyReplace value "wab:" "") "-" " ")).any
            (fun word => pyInStr word (pyToLower kv.1))) = none := by
        rw [List.find?_eq_none]
        intro kv hkv
        simp [hpart kv hkv]
      simp only [h1, h2]

/-- Witness for C6: a plain value with no symbolic prefix is returned
verbatim on an empty workbook model. -/
theorem resolve_reference_graceful_witness :
    resolve_variable_reference [] "plain value" "Resources" = "plain value" :=
  (resolve_reference_graceful [] "plain value" "Resources").1 (by decide)

/-- When no table passes the machine-table detection test, the extraction
loop produces no machine records. -/
lemma vm_fold_nil (tables : List Table)
    (h : ∀ t ∈ tables, isVmTableDetected t = false) :
    ∀ acc : List (List (String × String)),
      tables.foldl (fun acc t => acc ++ extractVmFromTable t) acc = acc := by
  induction tables with
  | nil => intro acc; rfl
  | cons t rest ih =>
    intro acc
    have ht : extractVmFromTable t = [] := by
      unfold extractVmFromTable
      rw [h t (List.mem_cons_self t rest)]
      simp
    simp only [List.foldl_cons, ht, List.append_nil]
    exact ih (fun t' ht' => h t' (List.mem_cons_of_mem t ht')) acc

/-- When no key matches the machine-count keyword pattern, the count
search fails. -/
lemma findVmCount_eq_none (actual_values : List (String × String))
    (h : ∀ kv ∈ actual_values,
      ((["vm", "server", "instance"].any (fun term => pyInStr term (pyToLower kv.1))) &&
       (["count", "number", "total"].any (fun term => pyInStr term (pyToLower kv.1))))
        = false) :
    findVmCount actual_values = none := by
  induction actual_values with
  | nil => rfl
  | cons kv rest ih =>
    have hkv := h kv (List.mem_cons_self kv rest)
    unfold findVmCount
    simp only [hkv, Bool.false_eq_true, if_false]
    exact ih (fun kv' hkv' => h kv' (List.mem_cons_of_mem kv hkv'))

/-- C5: with no machine table detected in the resources sheet and no
machine-count key among the actual values, the synthesizer falls back to
exactly the default count of 2 machine records, named by appending the
zero-padded sequence number to the application name: for application name
`"app"` the machines are `app-01` and `app-02`, in that order. -/
theorem default_machine_synthesis (resources_tables : List Table)
    (actual_values : List (String × String))
    (hdet : ∀ t ∈ resources_tables, isVmTableDetected t = false)
    (hcnt : ∀ kv ∈ actual_values,
      ((["vm", "server", "instance"].any (fun term => pyInStr term (pyToLower kv.1))) &&
       (["count", "number", "total"].any (fun term => pyInStr term (pyToLower kv.1))))
        = false)
    (happ : pyGet actual_values "Abbreviated App Name" "myapp" = "app") :
    (vmInstancesFor resources_tables actual_values).length = 2 ∧
    (vmInstancesFor resources_tables actual_values).map
      (fun r => pyLookup r "Hostname") = [some "app-01", some "app-02"] := by
  have hfold := vm_fold_nil resources_tables hdet []
  have hvm : vmInstancesFor resources_tables actual_values
      = create_vm_instances_from_config actual_values := by
    unfold vmInstancesFor
    rw [hfold]
    simp
  have hcount := findVmCount_eq_none actual_values hcnt
  have hcreate : create_vm_instances_from_config actual_values
      = [vmRecordFor actual_values 0, vmRecordFor actual_values 1] := by
    unfold create_vm_instances_from_config
    rw [hcount]
    rfl
  rw [hvm, hcreate]
  refine ⟨rfl, ?_⟩
  simp only [List.map_cons, List.map_nil, vmRecordFor, happ, pyLookup]
  rfl

/-- A lookup never finds a key no entry carries. -/
lemma pyLookup_eq_none_of_not_mem {m : List (String × String)} {k : String}
    (h : ∀ p ∈ m, p.1 ≠ k) : pyLookup m k = none := by
  induction m with
  | nil => rfl
  | cons p rest ih =>
    obtain ⟨a, b⟩ := p
    have ha : a ≠ k := h (a, b) (List.mem_cons_self _ _)
    simp only [pyLookup, if_neg ha]
    exact ih (fun q hq => h q (List.mem_cons_of_mem _ hq))

/-- A successful lookup exhibits an entry with the queried key. -/
lemma pyLookup_eq_some_mem {m : List (String × String)} {k v : String}
    (h : pyLookup m k = some v) : ∃ p ∈ m, p.1 = k := by
  induction m with
  | nil => cases h
  | cons p rest ih =>
    obtain ⟨a, b⟩ := p
    by_cases ha : a = k
    · exact ⟨(a, b), List.mem_cons_self _ _, ha⟩
    · simp only [pyLookup, if_neg ha] at h
      obtain ⟨q, hq, hqk⟩ := ih h
      exact ⟨q, List.mem_cons_of_mem _ hq, hqk⟩

/-- Updating the entries carrying key `a` does not change lookups of
other keys. -/
lemma pyLookup_map_replace {m : List (String × String)} {a b k : String}
    (hk : a ≠ k) :
    pyLookup (m.map (fun p => if p.1 = a then (a, b) else p)) k
      = pyLookup m k := by
  induction m with
  | nil => rfl
  | cons p rest ih =>
    obtain ⟨x, y⟩ := p
    simp only [List.map_cons]
    by_cases hx : x = a
    · subst hx
      rw [if_pos rfl]
      simp only [pyLookup]
      rw [if_neg hk, if_neg hk]
      exact ih
    · rw [if_neg hx]
      simp only [pyLookup]
      rw [ih]

/-- Updating the entries carrying key `a` makes the lookup of `a` return
the new value, provided some entry carries `a`. -/
lemma pyLookup_map_replace_self {m : List (String × String)} {a b : String}
    (hmem : m.any (fun p => p.1 = a) = true) :
    pyLookup (m.map (fun p => if p.1 = a then (a, b) else p)) a = some b := by
  induction m with
  | nil => cases hmem
  | cons p rest ih =>
    obtain ⟨x, y⟩ := p
    simp only [List.map_cons]
    by_cases hx : x = a
    · subst hx
      rw [if_pos rfl]
      simp [pyLookup]
    · have hrest : rest.any (fun p => p.1 = a) = true := by
        simpa [hx] using hmem
      rw [if_neg hx]
      simp only [pyLookup]
      rw [if_neg hx, ih hrest]

/-- Lookup in a concatenation prefers the left part. -/
lemma pyLookup_append (m1 m2 : List (String × String)) (k : String) :
    pyLookup (m1 ++ m2) k =
      match pyLookup m1 k with
      | some v => some v
      | none => pyLookup m2 k := by
  induction m1 with
  | nil => rfl
  | cons p rest ih =>
    obtain ⟨a, b⟩ := p
    by_cases ha : a = k
    · simp [pyLookup, ha]
    · simp [pyLookup, ha, ih]

/-- The dict-update law: after `d[a] = b`, looking up `a` yields `b` and
every other key is unchanged. -/
lemma pyLookup_dictInsert (m : List (String × String)) (a b k : String) :
    pyLookup (dictInsert m a b) k
      = if a = k then some b else pyLookup m k := by
  unfold dictInsert
  by_cases hmem : m.any (fun p => p.1 = a) = true
  · rw [if_pos hmem]
    by_cases hk : a = k
    · subst hk
      rw [if_pos rfl]
      exact pyLookup_map_replace_self hmem
    · rw [if_neg hk]
      exact pyLookup_map_replace hk
  · rw [if_neg hmem]
    rw [pyLookup_append]
    have hnone : ∀ p ∈ m, p.1 ≠ a := by
      intro p hp
      simpa using fun hpa => hmem (List.any_eq_true.mpr ⟨p, hp, by simp [hpa]⟩)
    by_cases hk : a = k
    · subst hk
      rw [pyLookup_eq_none_of_not_mem hnone]
      simp [pyLookup]
    · cases hm : pyLookup m k with
      | none => simp [pyLookup, hk, if_neg hk]
      | some v => simp [hm, if_neg hk]

/-- A key is present after the key-value fold exactly when some processed
row passes the acceptance test with that cleaned label. -/
lemma kv_fold_keys (rows : List (List String)) :
    ∀ (m : List (String × String)) (k : String),
      (∃ v, pyLookup (rows.foldl kvStep m) k = some v) ↔
      ((∃ v, pyLookup m k = some v) ∨
       ∃ row ∈ rows, kvRowOk row = true ∧ kvKey row = k) := by
  induction rows with
  | nil => intro m k; simp
  | cons row rest ih =>
    intro m k
    simp only [List.foldl_cons]
    rw [ih (kvStep m row) k]
    by_cases hok : kvRowOk row = true
    · have hins : (∃ v, pyLookup (kvStep m row) k = some v) ↔
          (kvKey row = k ∨ ∃ v, pyLookup m k = some v) := by
        unfold kvStep
        rw [if_pos hok]
        by_cases hkey : kvKey row = k
        · simp [pyLookup_dictInsert, hkey]
        · simp [pyLookup_dictInsert, hkey]
      rw [hins]
      simp only [List.mem_cons]
      constructor
      · rintro ((hkey | hm) | ⟨r, hr, hrok, hrk⟩)
        · exact Or.inr ⟨row, Or.inl rfl, hok, hkey⟩
        · exact Or.inl hm
        · exact Or.inr ⟨r, Or.inr hr, hrok, hrk⟩
      · rintro (hm | ⟨r, hr | hr, hrok, hrk⟩)
        · exact Or.inl (Or.inr hm)
        · exact Or.inl (Or.inl (hr ▸ hrk))
        · exact Or.inr ⟨r, hr, hrok, hrk⟩
    · have hstep : kvStep m row = m := by
        unfold kvStep
        rw [if_neg hok]
      rw [hstep]
      simp only [List.mem_cons]
      constructor
      · rintro (hm | ⟨r, hr, hrok, hrk⟩)
        · exact Or.inl hm
        · exact Or.inr ⟨r, Or.inr hr, hrok, hrk⟩
      · rintro (hm | ⟨r, hr | hr, hrok, hrk⟩)
        · exact Or.inl hm
        · exact absurd (hr ▸ hrok) hok
        · exact Or.inr ⟨r, hr, hrok, hrk⟩

/-- C4 counterexample: the claim says the row `["Value","ignored"]` is
never captured as a key-value entry, but `_extract_key_value_pairs`
captures it — its blacklist is only `nan`/`none`/empty; the placeholder
blacklist containing `"Value"` lives in the actual-value extraction, not
in the KeyValueMap. -/
theorem kv_blacklist_counterexample :
    pyLookup (extract_key_value_pairs
      [["Project Name", "Atlas"], ["Value", "ignored"]]) "Value"
      = some "ignored" := by decide

/-- C4 amended: a grid row contributes an entry to the sheet's KeyValueMap
exactly when the grid is at least two columns wide and the row's column 0
(trimmed, colons removed) and column 1 (trimmed) are both non-empty and
neither lowercases to `nan` or `none`; the placeholder blacklist with
`"Value"` applies only to actual-value extraction, so `["Value","ignored"]`
is captured, yet `find_key(["project"])` over the sheet built from
`["Project Name","Atlas"]` and `["Value","ignored"]` still returns
`"Project Name"`. -/
theorem kv_capture_characterization :
    (∀ (grid : List (List String)) (k : String),
      (∃ v, pyLookup (extract_key_value_pairs grid) k = some v) ↔
      (2 ≤ gridWidth grid ∧ ∃ row ∈ grid,
        pyTrim (pyReplace (pyTrim (cellAt row 0)) ":" "") = k ∧ k ≠ "" ∧
        pyTrim (cellAt row 1) ≠ "" ∧
        (["nan", "none", ""].contains (pyToLower k)) = false ∧
        (["nan", "none", ""].contains (pyToLower (pyTrim (cellAt row 1))))
          = false)) ∧
    find_key_by_keywords
      [("Overview", ⟨[], extract_key_value_pairs
        [["Project Name", "Atlas"], ["Value", "ignored"]]⟩)]
      "Overview" ["project"] = some "Project Name" := by
  constructor
  · intro grid k
    unfold extract_key_value_pairs
    by_cases hw : gridWidth grid < 2
    · rw [if_pos hw]
      constructor
      · rintro ⟨v, hv⟩; cases hv
      · rintro ⟨h2, _⟩; omega
    · rw [if_neg hw]
      rw [kv_fold_keys grid [] k]
      have hrow : ∀ row : List String,
          (kvRowOk row = true ∧ kvKey row = k) ↔
          (pyTrim (pyReplace (pyTrim (cellAt row 0)) ":" "") = k ∧ k ≠ "" ∧
           pyTrim (cellAt row 1) ≠ "" ∧
           (["nan", "none", ""].contains (pyToLower k)) = false ∧
           (["nan", "none", ""].contains (pyToLower (pyTrim (cellAt row 1))))
             = false) := by
        intro row
        unfold kvRowOk kvKey kvValue
        constructor
        · rintro ⟨hok, hkey⟩
          simp only [Bool.and_eq_true, Bool.not_eq_true', decide_eq_true_eq,
            ne_eq] at hok
          subst hkey
          exact ⟨rfl, hok.1.1.1, hok.1.1.2, hok.1.2, hok.2⟩
        · rintro ⟨hkey, hk, hval, hbl1, hbl2⟩
          subst hkey
          refine ⟨?_, rfl⟩
          simp only [Bool.and_eq_true, Bool.not_eq_true', decide_eq_true_eq,
            ne_eq]
          exact ⟨⟨⟨hk, hval⟩, hbl1⟩, hbl2⟩
      constructor
      · rintro (⟨v, hv⟩ | ⟨row, hr, hcond⟩)
        · cases hv
        · exact ⟨by omega, row, hr, (hrow row).mp hcond⟩
      · rintro ⟨_, row, hr, hcond⟩
        exact Or.inr ⟨row, hr, (hrow row).mpr hcond⟩
  · decide

/-- Witness for C4: the characterization instantiated on the example grid
shows the key `"Value"` present in its KeyValueMap. -/
theorem kv_capture_characterization_witness :
    ∃ v, pyLookup (extract_key_value_pairs
      [["Project Name", "Atlas"], ["Value", "ignored"]]) "Value" = some v :=
  (kv_capture_characterization.1
      [["Project Name", "Atlas"], ["Value", "ignored"]] "Value").mpr
    ⟨by decide, ["Value", "ignored"], by decide,
      by decide, by decide, by decide, by decide, by decide⟩

/-- Witness for C5: the fallback on an empty resources sheet with only the
abbreviated application name `"app"` yields `app-01` and `app-02`. -/
theorem default_machine_synthesis_witness :
    (vmInstancesFor [] [("Abbreviated App Name", "app")]).length = 2 ∧
    (vmInstancesFor [] [("Abbreviated App Name", "app")]).map
      (fun r => pyLookup r "Hostname") = [some "app-01", some "app-02"] :=
  default_machine_synthesis [] [("Abbreviated App Name", "app")]
    (by intro t ht; cases ht) (by decide) (by decide)

/-! ### Sanitizer machinery: membership and boundary lemmas -/

/-- Membership survives `dropWhile`. -/
lemma mem_of_mem_dropWhile {p : Char → Bool} :
    ∀ {l : List Char} {c : Char}, c ∈ l.dropWhile p → c ∈ l
  | [], _, h => h
  | a :: rest, c, h => by
    rw [List.dropWhile_cons] at h
    split at h
    · exact List.mem_cons_of_mem a (mem_of_mem_dropWhile h)
    · exact h

/-- Membership survives `dropTailWhile`. -/
lemma mem_of_mem_dropTailWhile {p : Char → Bool} :
    ∀ {l : List Char} {c : Char}, c ∈ dropTailWhile p l → c ∈ l
  | [], _, h => h
  | a :: rest, c, h => by
    unfold dropTailWhile at h
    cases hr : dropTailWhile p rest with
    | nil =>
      rw [hr] at h
      by_cases hp : p a = true
      · rw [if_pos hp] at h
        cases h
      · rw [if_neg hp] at h
        rcases List.mem_cons.mp h with h | h
        · exact h ▸ List.mem_cons_self _ _
        · cases h
    | cons d t =>
      rw [hr] at h
      rcases List.mem_cons.mp h with h | h
      · exact h ▸ List.mem_cons_self _ _
      · exact List.mem_cons_of_mem a (mem_of_mem_dropTailWhile (hr ▸ h))

/-- Membership survives collapsing underscore runs. -/
lemma mem_of_mem_collapseUnders :
    ∀ {l : List Char} {c : Char}, c ∈ collapseUnders l → c ∈ l
  | [], _, h => h
  | [_], _, h => h
  | a :: b :: rest, c, h => by
    unfold collapseUnders at h
    split at h
    · exact List.mem_cons_of_mem a (mem_of_mem_collapseUnders h)
    · rcases List.mem_cons.mp h with h | h
      · exact h ▸ List.mem_cons_self _ _
      · exact List.mem_cons_of_mem a (mem_of_mem_collapseUnders h)

/-- The head survives collapsing underscore runs. -/
lemma head?_collapseUnders :
    ∀ (b : Char) (rest : List Char),
      (collapseUnders (b :: rest)).head? = some b
  | _, [] => rfl
  | b, c :: rest => by
    unfold collapseUnders
    split
    · rename_i hbc
      have hb : b = '_' := by
        have := (Bool.and_eq_true _ _).mp hbc
        exact eq_of_beq this.1
      have hc : c = '_' := by
        have := (Bool.and_eq_true _ _).mp hbc
        exact eq_of_beq this.2
      rw [head?_collapseUnders c rest, hb, hc]
    · rfl

/-- A non-vanishing `dropTailWhile` keeps the head. -/
lemma head?_dropTailWhile {p : Char → Bool} :
    ∀ {l : List Char}, dropTailWhile p l ≠ [] →
      (dropTailWhile p l).head? = l.head?
  | [], h => absurd rfl h
  | c :: rest, h => by
    cases hr : dropTailWhile p rest with
    | nil =>
      unfold dropTailWhile at h ⊢
      rw [hr] at h ⊢
      by_cases hc : p c = true
      · rw [if_pos hc] at h
        simp at h
      · rw [if_neg hc]
        rfl
    | cons d t =>
      unfold dropTailWhile at h ⊢
      rw [hr]
      rfl

/-- The head of `dropWhile p` fails `p`. -/
lemma head?_dropWhile_not {p : Char → Bool} :
    ∀ {l : List Char} {b : Char}, (l.dropWhile p).head? = some b → p b = false
  | [], b, h => by cases h
  | c :: rest, b, h => by
    rw [List.dropWhile_cons] at h
    split at h
    · exact head?_dropWhile_not h
    · rename_i hc
      cases h
      exact Bool.eq_false_iff.mpr hc

/-- The last element left by `dropTailWhile p` fails `p`. -/
lemma getLast?_dropTailWhile {p : Char → Bool} :
    ∀ {l : List Char} {b : Char},
      (dropTailWhile p l).getLast? = some b → p b = false
  | [], b, h => by cases h
  | c :: rest, b, h => by
    cases hr : dropTailWhile p rest with
    | nil =>
      unfold dropTailWhile at h
      rw [hr] at h
      by_cases hc : p c = true
      · rw [if_pos hc] at h
        cases h
      · rw [if_neg hc] at h
        have h2 : some c = some b := h
        cases h2
        exact Bool.eq_false_iff.mpr hc
    | cons d t =>
      unfold dropTailWhile at h
      rw [hr] at h
      have h2 : (c :: d :: t).getLast? = some b := h
      rw [List.getLast?_cons_cons] at h2
      exact getLast?_dropTailWhile (l := rest) (hr ▸ h2)

/-- A `head?` value is a member. -/
lemma mem_of_head? {α : Type} : ∀ {l : List α} {b : α}, l.head? = some b → b ∈ l
  | [], _, h => by cases h
  | c :: rest, b, h => by
    cases h
    exact List.mem_cons_self _ _

/-- A `getLast?` value is a member. -/
lemma mem_of_getLast? {α : Type} : ∀ {l : List α} {b : α}, l.getLast? = some b → b ∈ l
  | [], _, h => by cases h
  | [c], b, h => by
    have hcb : ([c] : List α).getLast? = some c := rfl
    rw [hcb] at h
    cases h
    exact List.mem_cons_self _ _
  | c :: d :: t, b, h => by
    rw [List.getLast?_cons_cons] at h
    exact List.mem_cons_of_mem c (mem_of_getLast? h)

/-! ### No-double-underscore closure and identity lemmas -/

/-- `noDoubleUnders` descends to tails. -/
lemma noDouble_tail {c : Char} {l : List Char}
    (h : noDoubleUnders (c :: l) = true) : noDoubleUnders l = true := by
  cases l with
  | nil => rfl
  | cons d t =>
    unfold noDoubleUnders at h
    exact ((Bool.and_eq_true _ _).mp h).2

/-- The adjacent pair at the front of a `noDoubleUnders` list is not a
double underscore. -/
lemma noDouble_pair {a b : Char} {l : List Char}
    (h : noDoubleUnders (a :: l) = true) (hb : l.head? = some b) :
    ¬(a = '_' ∧ b = '_') := by
  cases l with
  | nil => cases hb
  | cons d t =>
    cases hb
    unfold noDoubleUnders at h
    have := ((Bool.and_eq_true _ _).mp h).1
    rintro ⟨ha, hd⟩
    subst ha
    subst hd
    simp at this

/-- Extending a `noDoubleUnders` list with a compatible head. -/
lemma noDouble_cons_of_head {c : Char} {l : List Char}
    (hl : noDoubleUnders l = true)
    (hc : ∀ d, l.head? = some d → ¬(c = '_' ∧ d = '_')) :
    noDoubleUnders (c :: l) = true := by
  cases l with
  | nil => rfl
  | cons d t =>
    unfold noDoubleUnders
    refine (Bool.and_eq_true _ _).mpr ⟨?_, hl⟩
    have := hc d rfl
    by_cases h1 : c = '_'
    · by_cases h2 : d = '_'
      · exact absurd ⟨h1, h2⟩ this
      · simp [h2]
    · simp [h1]

/-- Collapsing underscore runs yields a `noDoubleUnders` list. -/
lemma noDouble_collapse : ∀ l : List Char, noDoubleUnders (collapseUnders l) = true
  | [] => rfl
  | [_] => rfl
  | a :: b :: rest => by
    unfold collapseUnders
    split
    · exact noDouble_collapse (b :: rest)
    · rename_i hab
      refine noDouble_cons_of_head (noDouble_collapse (b :: rest)) ?_
      intro d hd
      rw [head?_collapseUnders b rest] at hd
      cases hd
      rintro ⟨ha, hb⟩
      subst ha
      subst hb
      simp at hab

/-- `noDoubleUnders` is preserved by `dropWhile`. -/
lemma noDouble_dropWhile {p : Char → Bool} :
    ∀ {l : List Char}, noDoubleUnders l = true →
      noDoubleUnders (l.dropWhile p) = true
  | [], _ => rfl
  | c :: rest, h => by
    rw [List.dropWhile_cons]
    split
    · exact noDouble_dropWhile (noDouble_tail h)
    · exact h

/-- `noDoubleUnders` is preserved by `dropTailWhile`. -/
lemma noDouble_dropTailWhile {p : Char → Bool} :
    ∀ {l : List Char}, noDoubleUnders l = true →
      noDoubleUnders (dropTailWhile p l) = true
  | [], _ => rfl
  | c :: rest, h => by
    cases hr : dropTailWhile p rest with
    | nil =>
      unfold dropTailWhile
      rw [hr]
      by_cases hc : p c = true
      · rw [if_pos hc]
        rfl
      · rw [if_neg hc]
        rfl
    | cons d t =>
      unfold dropTailWhile
      rw [hr]
      have htail : noDoubleUnders (d :: t) = true :=
        hr ▸ noDouble_dropTailWhile (noDouble_tail h)
      refine noDouble_cons_of_head htail ?_
      intro e he
      cases he
      have hhead : rest.head? = some d := by
        have hne : dropTailWhile p rest ≠ [] := by rw [hr]; simp
        have := head?_dropTailWhile (l := rest) hne
        rw [hr] at this
        exact this.symm
      exact noDouble_pair h hhead

/-- `noDoubleUnders` is preserved by `take`. -/
lemma noDouble_take : ∀ (n : Nat) (l : List Char),
    noDoubleUnders l = true → noDoubleUnders (l.take n) = true
  | 0, _, _ => rfl
  | _ + 1, [], _ => rfl
  | n + 1, c :: rest, h => by
    rw [List.take_succ_cons]
    refine noDouble_cons_of_head (noDouble_take n rest (noDouble_tail h)) ?_
    intro d hd
    cases n with
    | zero => cases hd
    | succ m =>
      cases rest with
      | nil => cases hd
      | cons e t =>
        rw [List.take_succ_cons] at hd
        cases hd
        exact noDouble_pair h rfl

/-- `dropWhile` is the identity when the head fails the predicate. -/
lemma dropWhile_eq_self_of_head {p : Char → Bool} {l : List Char}
    (h : ∀ b, l.head? = some b → p b = false) : l.dropWhile p = l := by
  cases l with
  | nil => rfl
  | cons c rest =>
    rw [List.dropWhile_cons, if_neg]
    rw [h c rfl]
    simp

/-- `dropTailWhile` is the identity when the last element fails the
predicate. -/
lemma dropTailWhile_eq_self {p : Char → Bool} :
    ∀ {l : List Char}, (∀ b, l.getLast? = some b → p b = false) →
      dropTailWhile p l = l
  | [], _ => rfl
  | c :: rest, h => by
    cases rest with
    | nil =>
      unfold dropTailWhile
      have hc := h c rfl
      change (if p c = true then [] else [c]) = [c]
      rw [hc]
      rfl
    | cons d t =>
      have hrec : dropTailWhile p (d :: t) = d :: t :=
        dropTailWhile_eq_self (fun b hb =>
          h b (by rw [List.getLast?_cons_cons]; exact hb))
      unfold dropTailWhile
      rw [hrec]

/-- Collapsing underscore runs is the identity on `noDoubleUnders` lists. -/
lemma collapse_eq_self : ∀ {l : List Char},
    noDoubleUnders l = true → collapseUnders l = l
  | [], _ => rfl
  | [_], _ => rfl
  | a :: b :: rest, h => by
    unfold collapseUnders
    have hab : ¬(a = '_' ∧ b = '_') := noDouble_pair h rfl
    rw [if_neg ?_, collapse_eq_self (noDouble_tail h)]
    intro hcon
    have h1 : a = '_' := eq_of_beq ((Bool.and_eq_true _ _).mp hcon).1
    have h2 : b = '_' := eq_of_beq ((Bool.and_eq_true _ _).mp hcon).2
    exact hab ⟨h1, h2⟩

/-- `replaceBad` leaves every character it keeps, so its output characters
all satisfy `dirKeep`. -/
lemma mem_replaceBad {l : List Char} {c : Char}
    (h : c ∈ replaceBad l) : dirKeep c = true := by
  obtain ⟨a, _, ha⟩ := List.mem_map.mp h
  by_cases hk : dirKeep a = true
  · rw [if_pos hk] at ha
    exact ha ▸ hk
  · rw [if_neg hk] at ha
    exact ha ▸ (by decide)

/-- `replaceBad` is the identity on lists of kept characters. -/
lemma replaceBad_eq_self : ∀ {l : List Char},
    (∀ c ∈ l, dirKeep c = true) → replaceBad l = l
  | [], _ => rfl
  | c :: rest, h => by
    unfold replaceBad
    rw [List.map_cons, if_pos (h c (List.mem_cons_self _ _))]
    have := replaceBad_eq_self (fun d hd => h d (List.mem_cons_of_mem c hd))
    unfold replaceBad at this
    rw [this]

/-- `dropTailWhile` never lengthens a list. -/
lemma length_dropTailWhile_le {p : Char → Bool} :
    ∀ l : List Char, (dropTailWhile p l).length ≤ l.length
  | [] => le_refl _
  | c :: rest => by
    cases hr : dropTailWhile p rest with
    | nil =>
      unfold dropTailWhile
      rw [hr]
      by_cases hc : p c = true
      · rw [if_pos hc]; simp
      · rw [if_neg hc]; simp
    | cons d t =>
      unfold dropTailWhile
      rw [hr]
      have := length_dropTailWhile_le (p := p) rest
      rw [hr] at this
      simp only [List.length_cons] at this ⊢
      omega

/-- A kept character is never whitespace. -/
lemma dirKeep_not_ws {c : Char} (h : dirKeep c = true) :
    c.isWhitespace = false := by
  by_contra hw
  rw [Bool.not_eq_false] at hw
  have hcases : c = ' ' ∨ c = '\t' ∨ c = '\r' ∨ c = '\n' := by
    simpa [Char.isWhitespace, or_assoc] using hw
  rcases hcases with h1 | h1 | h1 | h1 <;> subst h1 <;> exact absurd h (by decide)

/-! ### Sanitizer pipeline invariants and idempotence -/

/-- Membership survives `stripUnders`. -/
lemma mem_of_mem_stripUnders {x : List Char} {c : Char}
    (h : c ∈ stripUnders x) : c ∈ x := by
  unfold stripUnders at h
  exact mem_of_mem_dropWhile (mem_of_mem_dropTailWhile h)

/-- Membership survives `take`. -/
lemma mem_of_mem_take' {α : Type} :
    ∀ {n : Nat} {l : List α} {c : α}, c ∈ l.take n → c ∈ l
  | 0, _, _, h => by cases h
  | _ + 1, [], _, h => by cases h
  | n + 1, a :: rest, c, h => by
    rw [List.take_succ_cons] at h
    rcases List.mem_cons.mp h with h | h
    · exact h ▸ List.mem_cons_self _ _
    · exact List.mem_cons_of_mem a (mem_of_mem_take' h)

/-- Membership survives `truncate50`. -/
lemma mem_of_mem_truncate50 {x : List Char} {c : Char}
    (h : c ∈ truncate50 x) : c ∈ x := by
  unfold truncate50 at h
  split at h
  · exact mem_of_mem_take' (mem_of_mem_dropTailWhile h)
  · exact h

/-- `stripUnders` preserves `noDoubleUnders`. -/
lemma stripUnders_noDouble {x : List Char} (h : noDoubleUnders x = true) :
    noDoubleUnders (stripUnders x) = true := by
  unfold stripUnders
  exact noDouble_dropTailWhile (noDouble_dropWhile h)

/-- `truncate50` preserves `noDoubleUnders`. -/
lemma truncate50_noDouble {x : List Char} (h : noDoubleUnders x = true) :
    noDoubleUnders (truncate50 x) = true := by
  unfold truncate50
  split
  · exact noDouble_dropTailWhile (noDouble_take 50 x h)
  · exact h

/-- The head left by `stripUnders` is not an underscore. -/
lemma stripUnders_head {x : List Char} {b : Char}
    (h : (stripUnders x).head? = some b) : (b == '_') = false := by
  unfold stripUnders at h
  have hne : dropTailWhile (fun c => c == '_')
      (x.dropWhile (fun c => c == '_')) ≠ [] := by
    intro he
    rw [he] at h
    cases h
  rw [head?_dropTailWhile hne] at h
  exact head?_dropWhile_not (p := fun c => c == '_') h

/-- The last element left by `stripUnders` is not an underscore. -/
lemma stripUnders_last {x : List Char} {b : Char}
    (h : (stripUnders x).getLast? = some b) : (b == '_') = false := by
  unfold stripUnders at h
  exact getLast?_dropTailWhile (p := fun c => c == '_') h

/-- `truncate50` preserves the head. -/
lemma truncate50_head {x : List Char} {b : Char}
    (h : (truncate50 x).head? = some b) : x.head? = some b := by
  unfold truncate50 at h
  split at h
  · have hne : dropTailWhile (fun c => c == '_') (x.take 50) ≠ [] := by
      intro he
      rw [he] at h
      cases h
    rw [head?_dropTailWhile hne] at h
    cases x with
    | nil => cases h
    | cons a t =>
      have h2 : ((a :: t).take 50).head? = some a := rfl
      rw [h2] at h
      exact h
  · exact h

/-- The last element left by `truncate50` is not an underscore or comes
from the untruncated list. -/
lemma truncate50_last {x : List Char} {b : Char}
    (h : (truncate50 x).getLast? = some b) :
    (b == '_') = false ∨ x.getLast? = some b := by
  unfold truncate50 at h
  split at h
  · exact Or.inl (getLast?_dropTailWhile (p := fun c => c == '_') h)
  · exact Or.inr h

/-- `truncate50` caps the length at 50. -/
lemma truncate50_length (x : List Char) : (truncate50 x).length ≤ 50 := by
  unfold truncate50
  split
  · have h1 := length_dropTailWhile_le (p := fun c => c == '_') (x.take 50)
    have h2 : (x.take 50).length ≤ 50 := by
      rw [List.length_take]
      omega
    omega
  · rename_i hgt
    omega

/-- The fallback name `"unknown"` satisfies every pipeline invariant. -/
lemma unknown_invariants :
    unknownChars ≠ [] ∧ unknownChars.length ≤ 50 ∧
    (∀ c ∈ unknownChars, dirKeep c = true) ∧
    noDoubleUnders unknownChars = true ∧
    (∀ b, unknownChars.head? = some b → b ≠ '_') ∧
    (∀ b, unknownChars.getLast? = some b → b ≠ '_') := by
  refine ⟨by decide, by decide, by decide, by decide, ?_, ?_⟩
  · intro b hb
    have h2 : some 'u' = some b := hb
    cases h2
    decide
  · intro b hb
    have h2 : some 'n' = some b := hb
    cases h2
    decide

/-- Every output of the directory-name pipeline is non-empty, at most 50
characters, made of kept characters, free of double underscores, and
neither starts nor ends with an underscore. -/
lemma sanitizeDirCore_invariants (l : List Char) :
    sanitizeDirCore l ≠ [] ∧ (sanitizeDirCore l).length ≤ 50 ∧
    (∀ c ∈ sanitizeDirCore l, dirKeep c = true) ∧
    noDoubleUnders (sanitizeDirCore l) = true ∧
    (∀ b, (sanitizeDirCore l).head? = some b → b ≠ '_') ∧
    (∀ b, (sanitizeDirCore l).getLast? = some b → b ≠ '_') := by
  unfold sanitizeDirCore
  by_cases h0 : l = []
  · rw [if_pos h0]
    exact unknown_invariants
  · rw [if_neg h0]
    by_cases hempty :
        truncate50 (stripUnders (collapseUnders (replaceBad (trimWs l)))) = []
    · rw [if_pos hempty]
      exact unknown_invariants
    · rw [if_neg hempty]
      refine ⟨hempty, truncate50_length _, ?_, ?_, ?_, ?_⟩
      · intro c hc
        exact mem_replaceBad (mem_of_mem_collapseUnders
          (mem_of_mem_stripUnders (mem_of_mem_truncate50 hc)))
      · exact truncate50_noDouble (stripUnders_noDouble (noDouble_collapse _))
      · intro b hb
        have := stripUnders_head (truncate50_head hb)
        simpa using this
      · intro b hb
        rcases truncate50_last hb with h | h
        · simpa using h
        · simpa using stripUnders_last h

/-- Sanitizing the fallback name is a no-op. -/
lemma sanitizeDirCore_unknown : sanitizeDirCore unknownChars = unknownChars := by
  decide

/-- The directory-name pipeline is idempotent on character lists. -/
lemma sanitizeDirCore_idem (l : List Char) :
    sanitizeDirCore (sanitizeDirCore l) = sanitizeDirCore l := by
  obtain ⟨hne, hlen, hmem, hnd, hhead, hlast⟩ := sanitizeDirCore_invariants l
  set y := sanitizeDirCore l with hy
  have h1 : trimWs y = y := by
    unfold trimWs
    rw [dropWhile_eq_self_of_head
      (fun b hb => dirKeep_not_ws (hmem b (mem_of_head? hb)))]
    exact dropTailWhile_eq_self
      (fun b hb => dirKeep_not_ws (hmem b (mem_of_getLast? hb)))
  have h2 : replaceBad y = y := replaceBad_eq_self hmem
  have h3 : collapseUnders y = y := collapse_eq_self hnd
  have h4 : stripUnders y = y := by
    unfold stripUnders
    rw [dropWhile_eq_self_of_head (fun b hb => by
      have := hhead b hb
      simpa using this)]
    exact dropTailWhile_eq_self (fun b hb => by
      have := hlast b hb
      simpa using this)
  have h5 : truncate50 y = y := by
    unfold truncate50
    rw [if_neg (by omega)]
  rw [sanitizeDirCore, if_neg hne, h1, h2, h3, h4, h5, if_neg hne]

/-- Every character produced by the resource-name pipeline is in the
allowed Terraform class. -/
lemma resCore_all_keep (l : List Char) :
    ∀ c ∈ sanitizeResCore l, resKeep c = true := by
  have hmap : ∀ c ∈ l.map (fun c => if resKeep c then c else '_'),
      resKeep c = true := by
    intro c hc
    obtain ⟨a, _, ha⟩ := List.mem_map.mp hc
    by_cases hk : resKeep a = true
    · rw [if_pos hk] at ha
      exact ha ▸ hk
    · rw [if_neg hk] at ha
      exact ha ▸ (by decide)
  intro c hc
  unfold sanitizeResCore at hc
  cases hm : l.map (fun c => if resKeep c then c else '_') with
  | nil =>
    rw [hm] at hc
    cases hc
  | cons d rest =>
    rw [hm] at hc
    have hc' : c ∈ (if d.isAlpha = true then d :: rest
        else 'v' :: 'm' :: '_' :: d :: rest) := hc
    split at hc'
    · exact hmap c (hm ▸ hc')
    · rcases List.mem_cons.mp hc' with h | h
      · exact h ▸ (by decide)
      · rcases List.mem_cons.mp h with h | h
        · exact h ▸ (by decide)
        · rcases List.mem_cons.mp h with h | h
          · exact h ▸ (by decide)
          · exact hmap c (hm ▸ h)

/-- A non-empty resource-name pipeline output starts with a letter. -/
lemma resCore_head_alpha {l : List Char} {c : Char}
    (h : (sanitizeResCore l).head? = some c) : c.isAlpha = true := by
  unfold sanitizeResCore at h
  cases hm : l.map (fun c => if resKeep c then c else '_') with
  | nil =>
    rw [hm] at h
    cases h
  | cons d rest =>
    rw [hm] at h
    have h' : (if d.isAlpha = true then d :: rest
        else 'v' :: 'm' :: '_' :: d :: rest).head? = some c := h
    split at h'
    · rename_i hd
      have h2 : some d = some c := h'
      cases h2
      exact hd
    · have h2 : some 'v' = some c := h'
      cases h2
      decide

/-- The character-replacement map is the identity on kept characters. -/
lemma map_keep_eq_self : ∀ {l : List Char}, (∀ c ∈ l, resKeep c = true) →
    l.map (fun c => if resKeep c then c else '_') = l
  | [], _ => rfl
  | c :: rest, h => by
    rw [List.map_cons, if_pos (h c (List.mem_cons_self _ _)),
      map_keep_eq_self (fun d hd => h d (List.mem_cons_of_mem c hd))]

/-- The resource-name pipeline is idempotent on character lists. -/
lemma sanitizeResCore_idem (l : List Char) :
    sanitizeResCore (sanitizeResCore l) = sanitizeResCore l := by
  have hmap : (sanitizeResCore l).map (fun c => if resKeep c then c else '_')
      = sanitizeResCore l := map_keep_eq_self (resCore_all_keep l)
  cases hy : sanitizeResCore l with
  | nil => rfl
  | cons d rest =>
    have hd : d.isAlpha = true := resCore_head_alpha (by rw [hy]; rfl)
    rw [hy] at hmap
    rw [sanitizeResCore, hmap]
    have hgoal : (if d.isAlpha = true then d :: rest
        else 'v' :: 'm' :: '_' :: d :: rest) = d :: rest := by
      rw [if_pos hd]
    exact hgoal

/-- C3: both identifier sanitizers are idempotent: applying the
directory-name sanitizer or the Terraform resource-name sanitizer to its
own output is a no-op, for every input string. -/
theorem sanitize_idempotent (x : String) :
    sanitize_directory_name (sanitize_directory_name x)
      = sanitize_directory_name x ∧
    sanitize_resource_name (sanitize_resource_name x)
      = sanitize_resource_name x := by
  constructor
  · show String.mk (sanitizeDirCore (sanitizeDirCore x.data))
      = String.mk (sanitizeDirCore x.data)
    exact congrArg String.mk (sanitizeDirCore_idem x.data)
  · show String.mk (sanitizeResCore (sanitizeResCore x.data))
      = String.mk (sanitizeResCore x.data)
    exact congrArg String.mk (sanitizeResCore_idem x.data)

/-- C8 counterexample: neither sanitizer lowercases its input — `"A"` is
returned unchanged by both, and `"A"` is not the lowercase `"a"`. -/
theorem sanitizer_lowercase_counterexample :
    sanitize_directory_name "A" = "A" ∧ sanitize_resource_name "A" = "A" ∧
    ("A" : String) ≠ "a" :=
  ⟨by decide, by decide, by decide⟩

/-- C8 amended: the directory-name sanitizer replaces whitespace and
disallowed characters with the underscore separator (case preserved — no
lowercasing), collapses repeated separators, trims leading and trailing
separators, truncates to 50 characters, and substitutes the token
`unknown` when the result would be empty, so its output is always
non-empty; the resource-name sanitizer replaces disallowed characters
with underscores and prepends `vm_` so that a non-empty result always
starts with a letter, with no truncation or empty-default. -/
theorem sanitizer_pipeline_properties (x : String) :
    (sanitize_directory_name x ≠ "" ∧
     (sanitize_directory_name x).length ≤ 50 ∧
     (∀ c ∈ (sanitize_directory_name x).data, dirKeep c = true) ∧
     noDoubleUnders (sanitize_directory_name x).data = true ∧
     (∀ b, (sanitize_directory_name x).data.head? = some b → b ≠ '_') ∧
     (∀ b, (sanitize_directory_name x).data.getLast? = some b → b ≠ '_')) ∧
    ((∀ c ∈ (sanitize_resource_name x).data, resKeep c = true) ∧
     (sanitize_resource_name x ≠ "" →
       ∀ b, (sanitize_resource_name x).data.head? = some b →
         b.isAlpha = true)) := by
  obtain ⟨hne, hlen, hmem, hnd, hhead, hlast⟩ := sanitizeDirCore_invariants x.data
  refine ⟨⟨?_, hlen, hmem, hnd, hhead, hlast⟩, ?_, ?_⟩
  · intro h
    exact hne (congrArg String.data h)
  · exact resCore_all_keep x.data
  · intro _ b hb
    exact resCore_head_alpha hb

/-- Witness for C8: the amended pipeline properties evaluated on concrete
inputs: `"My App"` sanitizes non-empty with head `'M'` kept verbatim, and
the resource name for `"1a"` starts with the letter `'v'`. -/
theorem sanitizer_pipeline_properties_witness :
    sanitize_directory_name "My App" ≠ "" ∧ ('M' : Char) ≠ '_' ∧
    ('v' : Char).isAlpha = true := by
  have h1 := sanitizer_pipeline_properties "My App"
  have h2 := sanitizer_pipeline_properties "1a"
  refine ⟨h1.1.1, ?_, ?_⟩
  · exact h1.1.2.2.2.2.1 'M' (by decide)
  · exact h2.2.2 (by decide) 'v' (by decide)

/-- C7 counterexample: the rendered validation script embeds the
generation clock reading, so two renderings of the same resolved inputs at
different clock readings are not byte-identical. -/
theorem render_determinism_counterexample :
    generate_validate_script [] "2025-01-01 10:00:00"
      ≠ generate_validate_script [] "2025-01-01 10:00:01" := by
  decide

/-- C7 amended: rendering the validation-script artifact is deterministic
with respect to the resolved inputs together with the generation clock
reading: for a fixed project configuration, two renderings are
byte-identical exactly when their clock readings agree. -/
theorem validate_script_deterministic_given_clock
    (project_info : List (String × String)) (t1 t2 : String) :
    generate_validate_script project_info t1
      = generate_validate_script project_info t2 ↔ t1 = t2 := by
  constructor
  · intro h
    unfold generate_validate_script at h
    have hd := congrArg String.data h
    simp only [String.data_append, List.append_assoc] at hd
    have h1 := List.append_cancel_left hd
    have h2 := List.append_cancel_left h1
    have h3 := List.append_cancel_left h2
    exact String.ext (List.append_cancel_right h3)
  · intro h
    rw [h]

/-- Witness for C7: equal clock readings give byte-identical validation
scripts on a concrete configuration. -/
theorem validate_script_deterministic_given_clock_witness :
    generate_validate_script [("project_name", "atlas")] "2025-01-01 10:00:00"
      = generate_validate_script [("project_name", "atlas")]
          "2025-01-01 10:00:00" :=
  (validate_script_deterministic_given_clock
    [("project_name", "atlas")] "2025-01-01 10:00:00" "2025-01-01 10:00:00").mpr
    rfl

end BuildTicket
